import Mathlib

/-!
Verification of the bitcoin-dataset-script repository.

The repository has two pipelines:
* Collector (scripts/bitcoinDataCollector.py): fetches a current quote and a
  historical market chart from the CoinGecko API, merges the three raw
  timestamp/value arrays into a clean table, writes a CSV and a datapackage
  descriptor.
* Reporter (scripts/bitcoinVisualization.py): reads the CSV back, computes
  summary statistics and renders charts and an HTML report.

We shallow-embed the data model and the pure core of both pipelines:
timestamps are epoch milliseconds (ℤ), monetary values are ℚ, a pandas
DataFrame is a Lean list of rows, and the two pandas inner merges of
process_historical_data are embedded as an order-preserving inner join.
-/

namespace BitcoinDataset

/-! ## Data model -/

/-- A raw market-chart response: three parallel arrays of
`[timestamp_ms, value]` pairs, exactly the `prices`, `market_caps` and
`total_volumes` keys of the CoinGecko `market_chart` JSON. -/
structure RawHistorical where
  prices : List (Int × Rat)
  market_caps : List (Int × Rat)
  total_volumes : List (Int × Rat)
deriving DecidableEq

/-- One row of the processed DataFrame built by `process_historical_data`:
columns `date` (calendar day, embedded as whole days since the epoch),
`datetime` (the original epoch-millisecond timestamp), `price` (USD, rounded
to 2 decimals), `market_cap` and `volume` (USD, rounded to integers). -/
structure PricePoint where
  date : Int
  datetime : Int
  price : Rat
  market_cap : Int
  volume : Int
deriving DecidableEq

/-- A current-quote object as returned under the `bitcoin` key of the
`simple/price` endpoint. -/
structure CurrentQuote where
  usd : Rat
  usd_market_cap : Rat
  usd_24h_vol : Rat
  usd_24h_change : Rat
  last_updated_at : Int
deriving DecidableEq

/-- The decoded body of the `simple/price` response: an object keyed by coin
id; the collector only ever reads its `bitcoin` key (`data[self.coin_id]`). -/
structure SimplePriceBody where
  bitcoin : CurrentQuote
deriving DecidableEq

/-- An HTTP response as seen by the two collector functions: a status code
plus the decoded JSON body (`response.json()`). -/
structure HttpResponse (α : Type) where
  status_code : Nat
  body : α
deriving DecidableEq

/-! ## Rounding

pandas `Series.round` rounds half to even; we embed that rounding on ℚ. -/

/-- Round a rational to the nearest integer, ties to even
(the rounding of `df[...].round(0)`). -/
def roundHalfEven (x : Rat) : Int :=
  if x - ⌊x⌋ < 1/2 then ⌊x⌋
  else if 1/2 < x - ⌊x⌋ then ⌊x⌋ + 1
  else if ⌊x⌋ % 2 = 0 then ⌊x⌋ else ⌊x⌋ + 1

/-- Embeds `df[...].round(2)`: round to two decimal places. -/
def round2 (x : Rat) : Rat := (roundHalfEven (x * 100) : Rat) / 100

/-- Embeds `pd.to_datetime(ts, unit=ms).dt.date`: the UTC calendar day of an epoch
millisecond timestamp, as whole days since the epoch (floor division). -/
def msToDate (t : Int) : Int := Int.fdiv t 86400000

/-! ## The Collector pipeline (scripts/bitcoinDataCollector.py) -/

/-- Embeds `BitcoinDataCollector.collect_current_price`: one GET of `simple/price`;
on status 200 return `response.json()[self.coin_id]`, otherwise raise
(embedded as `Except.error`, the spec's ApiError). No retry. -/
def collect_current_price (resp : HttpResponse SimplePriceBody) :
    Except String CurrentQuote :=
  if resp.status_code = 200 then Except.ok resp.body.bitcoin
  else Except.error "Failed to fetch current price"

/-- Embeds `BitcoinDataCollector.collect_historical_prices`: one GET of
`market_chart`; on status 200 return the decoded body, otherwise raise
(embedded as `Except.error`). No retry. -/
def collect_historical_prices (resp : HttpResponse RawHistorical) :
    Except String RawHistorical :=
  if resp.status_code = 200 then Except.ok resp.body
  else Except.error "Failed to fetch historical data"

/-- Embeds `df_left.merge(df_right, on='timestamp')`: the pandas inner join. It
keeps exactly the key values present in both frames, preserving the order of
the left frame's keys (and, per left row, the right frame's order of
matches). -/
def mergeOn {α β : Type} (left : List (Int × α)) (right : List (Int × β)) :
    List (Int × α × β) :=
  left.flatMap fun l =>
    (right.filter fun r => decide (r.1 = l.1)).map fun r => (l.1, l.2, r.2)

/-- Embeds `BitcoinDataCollector.process_historical_data`: build the three keyed
frames, inner-merge prices with market caps, then with volumes, derive the
`date` and `datetime` columns from the timestamp, round `price` to 2
decimals and `market_cap`/`volume` to int64. -/
def process_historical_data (raw : RawHistorical) : List PricePoint :=
  (mergeOn (mergeOn raw.prices raw.market_caps) raw.total_volumes).map fun r =>
    { date := msToDate r.1
      datetime := r.1
      price := round2 r.2.1.1
      market_cap := roundHalfEven r.2.1.2
      volume := roundHalfEven r.2.2 }

/-- One data row of `data/processed/bitcoin_prices.csv`. `df.to_csv` writes
each cell as decimal text; for the 2-decimal prices the pipeline produces,
the price cell's text denotes exactly an integer number of cents, which is
how we embed it (`priceCents`). The other columns carry their day,
millisecond and integer values. -/
structure CsvRow where
  date : Int
  datetime : Int
  priceCents : Int
  market_cap : Int
  volume : Int
deriving DecidableEq

/-- Embeds `BitcoinDataCollector.save_processed_data`: `df.to_csv` on the processed
frame, overwriting the single canonical CSV. -/
def save_processed_data (df : List PricePoint) : List CsvRow :=
  df.map fun p =>
    { date := p.date
      datetime := p.datetime
      priceCents := (p.price * 100).num
      market_cap := p.market_cap
      volume := p.volume }

/-- The `datapackage.json` descriptor built by `create_datapackage`; we keep
the fields that depend on the CSV plus representative constant metadata. -/
structure DataPackage where
  name : String
  title : String
  version : String
  resourcePath : String
  resourceBytes : Int
deriving DecidableEq

/-- Embeds `BitcoinDataCollector.create_datapackage`: re-read the just-written CSV
(`pd.read_csv(csv_file)`) and emit the descriptor, whose recorded byte size
is `len(df) * 100`; the write overwrites any previous `datapackage.json`. -/
def create_datapackage (csv : List CsvRow) : DataPackage :=
  { name := "bitcoin-price-data"
    title := "Bitcoin Price Data"
    version := "1.0.0"
    resourcePath := "data/processed/bitcoin_prices.csv"
    resourceBytes := (csv.length : Int) * 100 }

/-- The observable outcome of one Collector run: process exit code, the CSV
contents written (none when the run aborted before writing) and the
descriptor written. -/
structure CollectorRun where
  exitCode : Int
  processedCsv : Option (List CsvRow)
  datapackage : Option DataPackage
deriving DecidableEq

/-- Embeds `bitcoinDataCollector.main`: fetch the quote, fetch the history, process
and persist; any raised error is caught by the top-level handler which
returns exit code 1, so a fetch failure aborts the run before any processed
artifact is produced. -/
def collector_main (rc : HttpResponse SimplePriceBody)
    (rh : HttpResponse RawHistorical) : CollectorRun :=
  match collect_current_price rc with
  | Except.error _ => { exitCode := 1, processedCsv := none, datapackage := none }
  | Except.ok _ =>
    match collect_historical_prices rh with
    | Except.error _ => { exitCode := 1, processedCsv := none, datapackage := none }
    | Except.ok raw =>
      let csv := save_processed_data (process_historical_data raw)
      { exitCode := 0
        processedCsv := some csv
        datapackage := some (create_datapackage csv) }

/-! ## The Reporter pipeline (scripts/bitcoinVisualization.py) -/

/-- Embeds `load_data`: `pd.read_csv` of the canonical CSV, parsing the decimal
text back into numbers; a missing file (`FileNotFoundError`, the spec's
DataNotFoundError) is caught and turned into the sentinel `None`. The
argument is the state of the file on disk: `none` when it does not exist. -/
def load_data (file : Option (List CsvRow)) : Option (List PricePoint) :=
  match file with
  | none => none
  | some rows =>
    some (rows.map fun r =>
      { date := r.date
        datetime := r.datetime
        price := (r.priceCents : Rat) / 100
        market_cap := r.market_cap
        volume := r.volume })

/-- pandas `Series.min` on a column (meaningful on nonempty columns; the
empty case never arises where this is used). -/
def colMin : List Rat → Rat
  | [] => 0
  | x :: xs => xs.foldl min x

/-- pandas `Series.max` on a column. -/
def colMax : List Rat → Rat
  | [] => 0
  | x :: xs => xs.foldl max x

/-- pandas `Series.mean` on a column: sum divided by length. -/
def colMean (l : List Rat) : Rat := l.sum / l.length

/-- The numeric content of the stats dict built by `create_summary_stats`
(the Python code formats these five numbers as dollar strings). -/
structure SummaryStats where
  currentPrice : Rat
  yearHigh : Rat
  yearLow : Rat
  averagePrice : Rat
  priceRange : Rat
deriving DecidableEq

/-- Embeds `create_summary_stats`: `df.iloc[-1]['price']` as the current price, the
min, max and mean of the `price` column, and max minus min as the range.
`df.iloc[-1]` raises IndexError on an empty frame, embedded as `none`. -/
def create_summary_stats (df : List PricePoint) : Option SummaryStats :=
  match df.getLast? with
  | none => none
  | some lastRow =>
    some { currentPrice := lastRow.price
           yearHigh := colMax (df.map PricePoint.price)
           yearLow := colMin (df.map PricePoint.price)
           averagePrice := colMean (df.map PricePoint.price)
           priceRange :=
             colMax (df.map PricePoint.price) - colMin (df.map PricePoint.price) }

/-- The observable outcome of one Reporter run: exit code and chart/report
files written. -/
structure ReporterRun where
  exitCode : Int
  filesWritten : List String
deriving DecidableEq

/-- Embeds `bitcoinVisualization.main`: load the CSV; on the `None` sentinel return
exit code 1 having written nothing. Otherwise build the two charts and the
stats — the stats are computed (line 175) before any chart file is written
(lines 178-185), so an IndexError from an empty frame propagates as an
uncaught exception (embedded as `none`) with no file written; on success the
three HTML artifacts are written and the exit code is 0. -/
def visualization_main (file : Option (List CsvRow)) : Option ReporterRun :=
  match load_data file with
  | none => some { exitCode := 1, filesWritten := [] }
  | some df =>
    match create_summary_stats df with
    | none => none
    | some _ =>
      some { exitCode := 0
             filesWritten := ["visualizations/bitcoin_price_chart.html",
                              "visualizations/bitcoin_volume_chart.html",
                              "visualizations/bitcoin_report.html"] }

/-! ## Lemmas about the inner join -/

theorem filter_key_eq_nil {β : Type} (r : List (Int × β)) (a : Int)
    (h : a ∉ r.map Prod.fst) : (r.filter fun y => decide (y.1 = a)) = [] := by
  rw [List.filter_eq_nil_iff]
  intro y hy
  simp only [decide_eq_true_eq]
  intro heq
  exact h (List.mem_map.mpr ⟨y, hy, heq⟩)

theorem filter_key_eq_single {β : Type} (r : List (Int × β))
    (hnd : (r.map Prod.fst).Nodup) (a : Int) (ha : a ∈ r.map Prod.fst) :
    ∃ b, (r.filter fun y => decide (y.1 = a)) = [(a, b)] := by
  induction r with
  | nil => simp at ha
  | cons c r ih =>
    simp only [List.map_cons, List.nodup_cons] at hnd
    by_cases hc : c.1 = a
    · refine ⟨c.2, ?_⟩
      rw [List.filter_cons_of_pos (by simpa using hc),
        filter_key_eq_nil r a (hc ▸ hnd.1)]
      cases c
      simpa using hc
    · simp only [List.map_cons, List.mem_cons] at ha
      rcases ha with ha | ha
      · exact absurd ha.symm hc
      · rw [List.filter_cons_of_neg (by simpa using hc)]
        exact ih hnd.2 ha

theorem mergeOn_map_fst {α β : Type} (l : List (Int × α)) (r : List (Int × β))
    (hnd : (r.map Prod.fst).Nodup) :
    (mergeOn l r).map Prod.fst
      = (l.map Prod.fst).filter fun t => decide (t ∈ r.map Prod.fst) := by
  induction l with
  | nil => rfl
  | cons x l ih =>
    simp only [mergeOn, List.flatMap_cons, List.map_append, List.map_cons] at *
    by_cases hx : x.1 ∈ r.map Prod.fst
    · obtain ⟨b, hb⟩ := filter_key_eq_single r hnd x.1 hx
      rw [hb, List.filter_cons_of_pos (by simpa using hx), ← ih]
      rfl
    · rw [filter_key_eq_nil r x.1 hx, List.filter_cons_of_neg (by simpa using hx),
        ← ih]
      rfl

theorem mem_mergeOn {α β : Type} {l : List (Int × α)} {r : List (Int × β)}
    {x : Int × α × β} (hx : x ∈ mergeOn l r) :
    (x.1, x.2.1) ∈ l ∧ (x.1, x.2.2) ∈ r := by
  simp only [mergeOn, List.mem_flatMap, List.mem_map, List.mem_filter,
    decide_eq_true_eq] at hx
  obtain ⟨a, ha, y, ⟨hyr, hy1⟩, rfl⟩ := hx
  refine ⟨by simpa using ha, ?_⟩
  show (a.1, y.2) ∈ r
  rw [← hy1]
  simpa using hyr

/-- The `datetime` column of the processed frame is exactly the prices
timestamp column filtered to the timestamps present in both other arrays
(when those two key columns are duplicate-free). -/
theorem process_map_datetime (raw : RawHistorical)
    (hm : (raw.market_caps.map Prod.fst).Nodup)
    (hv : (raw.total_volumes.map Prod.fst).Nodup) :
    (process_historical_data raw).map PricePoint.datetime
      = (raw.prices.map Prod.fst).filter fun t =>
          decide (t ∈ raw.market_caps.map Prod.fst) &&
            decide (t ∈ raw.total_volumes.map Prod.fst) := by
  have key : (process_historical_data raw).map PricePoint.datetime
      = (mergeOn (mergeOn raw.prices raw.market_caps) raw.total_volumes).map
          Prod.fst := by
    simp only [process_historical_data, List.map_map]
    rfl
  rw [key, mergeOn_map_fst _ _ hv, mergeOn_map_fst _ _ hm, List.filter_filter]
  refine List.filter_congr ?_
  intro t _
  exact Bool.and_comm _ _

/-! ## Evaluation lemmas for the rounding functions -/

theorem roundHalfEven_intCast (n : ℤ) : roundHalfEven (n : ℚ) = n := by
  rw [roundHalfEven, Int.floor_intCast]
  norm_num

theorem round2_intCast (n : ℤ) : round2 (n : ℚ) = n := by
  have h : ((n : ℚ) * 100) = ((n * 100 : ℤ) : ℚ) := by push_cast; ring
  rw [round2, h, roundHalfEven_intCast]
  push_cast
  field_simp

theorem round2_num_div_100 (x : ℚ) : ((round2 x * 100).num : ℚ) / 100 = round2 x := by
  rw [round2, div_mul_cancel₀ _ (by norm_num : (100 : ℚ) ≠ 0), Rat.num_intCast]

/-! ## Concrete inputs used by witnesses and counterexamples -/

/-- Three arrays with pairwise-distinct timestamps; only timestamp 0 is
common to all three. -/
def exRawA : RawHistorical :=
  { prices := [(0, 10), (86400000, 20), (172800000, 30)]
    market_caps := [(0, 1), (172800000, 3)]
    total_volumes := [(0, 2), (86400000, 4)] }

/-- C1: For every valid raw historical response (three arrays of
[timestamp, value] pairs, i.e. duplicate-free daily series),
process_historical_data returns a series whose length equals the number of
timestamps common to all three input arrays, and any timestamp absent from
at least one array contributes no row to the result. -/
theorem process_length_inner_join (raw : RawHistorical)
    (hp : (raw.prices.map Prod.fst).Nodup)
    (hm : (raw.market_caps.map Prod.fst).Nodup)
    (hv : (raw.total_volumes.map Prod.fst).Nodup) :
    (process_historical_data raw).length =
      ((raw.prices.map Prod.fst).toFinset ∩ (raw.market_caps.map Prod.fst).toFinset
        ∩ (raw.total_volumes.map Prod.fst).toFinset).card ∧
    ∀ t : Int,
      (t ∉ raw.prices.map Prod.fst ∨ t ∉ raw.market_caps.map Prod.fst ∨
        t ∉ raw.total_volumes.map Prod.fst) →
      ∀ p ∈ process_historical_data raw, p.datetime ≠ t := by
  have hdt := process_map_datetime raw hm hv
  constructor
  · have hlen : (process_historical_data raw).length
        = ((raw.prices.map Prod.fst).filter fun t =>
            decide (t ∈ raw.market_caps.map Prod.fst) &&
              decide (t ∈ raw.total_volumes.map Prod.fst)).length := by
      rw [← hdt, List.length_map]
    rw [hlen, ← List.toFinset_card_of_nodup (hp.filter _)]
    congr 1
    ext t
    simp only [List.mem_toFinset, List.mem_filter, Finset.mem_inter,
      Bool.and_eq_true, decide_eq_true_eq]
    tauto
  · intro t ht p hp' heq
    have hmem : p.datetime ∈ (process_historical_data raw).map PricePoint.datetime :=
      List.mem_map_of_mem _ hp'
    rw [hdt, heq] at hmem
    have hsplit := List.mem_filter.mp hmem
    simp only [Bool.and_eq_true, decide_eq_true_eq] at hsplit
    rcases ht with h | h | h
    · exact h hsplit.1
    · exact h hsplit.2.1
    · exact h hsplit.2.2

theorem process_length_inner_join_witness :
    ((exRawA.prices.map Prod.fst).Nodup ∧ (exRawA.market_caps.map Prod.fst).Nodup ∧
      (exRawA.total_volumes.map Prod.fst).Nodup) ∧
    ((process_historical_data exRawA).length =
      ((exRawA.prices.map Prod.fst).toFinset ∩
        (exRawA.market_caps.map Prod.fst).toFinset
        ∩ (exRawA.total_volumes.map Prod.fst).toFinset).card ∧
    ∀ t : Int,
      (t ∉ exRawA.prices.map Prod.fst ∨ t ∉ exRawA.market_caps.map Prod.fst ∨
        t ∉ exRawA.total_volumes.map Prod.fst) →
      ∀ p ∈ process_historical_data exRawA, p.datetime ≠ t) :=
  ⟨⟨by decide, by decide, by decide⟩,
    process_length_inner_join exRawA (by decide) (by decide) (by decide)⟩

/-- A raw response whose arrays list the two timestamps in descending
order (the code never sorts, so the merge preserves this order). -/
def exRawDesc : RawHistorical :=
  { prices := [(86400000, 1), (0, 2)]
    market_caps := [(86400000, 1), (0, 2)]
    total_volumes := [(86400000, 1), (0, 2)] }

/-- C2 counterexample: on a raw response whose arrays are in descending
timestamp order, the processed series is not in ascending timestamp order,
so the claim is false for arbitrary raw responses. -/
theorem process_not_sorted_on_unordered_input :
    ¬ ((process_historical_data exRawDesc).map PricePoint.datetime).Sorted
        (· < ·) := by
  have hdt := process_map_datetime exRawDesc (by decide) (by decide)
  rw [hdt]
  decide

/-- C2 (amended): for every raw historical response whose arrays list
timestamps in strictly increasing order (equivalently: prices strictly
increasing, the other two key columns duplicate-free), the processed series
has strictly increasing, unique timestamps and its rows are ordered by
ascending timestamp. -/
theorem process_sorted_strict (raw : RawHistorical)
    (hp : (raw.prices.map Prod.fst).Sorted (· < ·))
    (hm : (raw.market_caps.map Prod.fst).Nodup)
    (hv : (raw.total_volumes.map Prod.fst).Nodup) :
    ((process_historical_data raw).map PricePoint.datetime).Sorted (· < ·) ∧
    ((process_historical_data raw).map PricePoint.datetime).Nodup := by
  rw [process_map_datetime raw hm hv]
  have hs : ((raw.prices.map Prod.fst).filter fun t =>
      decide (t ∈ raw.market_caps.map Prod.fst) &&
        decide (t ∈ raw.total_volumes.map Prod.fst)).Sorted (· < ·) :=
    List.Pairwise.filter _ hp
  exact ⟨hs, hs.nodup⟩

theorem process_sorted_strict_witness :
    ((exRawA.prices.map Prod.fst).Sorted (· < ·) ∧
      (exRawA.market_caps.map Prod.fst).Nodup ∧
      (exRawA.total_volumes.map Prod.fst).Nodup) ∧
    (((process_historical_data exRawA).map PricePoint.datetime).Sorted (· < ·) ∧
      ((process_historical_data exRawA).map PricePoint.datetime).Nodup) :=
  ⟨⟨by decide, by decide, by decide⟩,
    process_sorted_strict exRawA (by decide) (by decide) (by decide)⟩

/-! ## Per-row rounding -/

/-- Every price in the processed series is `round2` of some raw value
(shared helper, also used for the CSV round trip). -/
theorem process_price_round2 (raw : RawHistorical) {p : PricePoint}
    (hp : p ∈ process_historical_data raw) : ∃ x, p.price = round2 x := by
  simp only [process_historical_data, List.mem_map] at hp
  obtain ⟨r, _, rfl⟩ := hp
  exact ⟨r.2.1.1, rfl⟩

/-- C3: every row of the processed series carries the raw price rounded to
2 decimal places and the raw market cap and volume rounded to the nearest
integer (ties to even), each taken from the input entry with the row's
timestamp. -/
theorem process_rounding (raw : RawHistorical) (p : PricePoint)
    (hp : p ∈ process_historical_data raw) :
    ∃ pr mc vol : Rat,
      (p.datetime, pr) ∈ raw.prices ∧ (p.datetime, mc) ∈ raw.market_caps ∧
      (p.datetime, vol) ∈ raw.total_volumes ∧
      p.price = round2 pr ∧ p.market_cap = roundHalfEven mc ∧
      p.volume = roundHalfEven vol := by
  simp only [process_historical_data, List.mem_map] at hp
  obtain ⟨r, hr, rfl⟩ := hp
  obtain ⟨hr1, hr2⟩ := mem_mergeOn hr
  obtain ⟨hq1, hq2⟩ := mem_mergeOn hr1
  exact ⟨r.2.1.1, r.2.1.2, r.2.2, hq1, hq2, hr2, rfl, rfl, rfl⟩

/-- A one-row response exercising both rounding modes: a market cap of 5/2
rounds to the even 2, a volume of 7/2 rounds to the even 4. -/
def exRawB : RawHistorical :=
  { prices := [(0, 100)]
    market_caps := [(0, 5/2)]
    total_volumes := [(0, 7/2)] }

/-- The single processed row of `exRawB`. -/
def exPointB : PricePoint :=
  { date := 0, datetime := 0, price := 100, market_cap := 2, volume := 4 }

theorem process_rounding_witness :
    exPointB ∈ process_historical_data exRawB ∧
    ∃ pr mc vol : Rat,
      (exPointB.datetime, pr) ∈ exRawB.prices ∧
      (exPointB.datetime, mc) ∈ exRawB.market_caps ∧
      (exPointB.datetime, vol) ∈ exRawB.total_volumes ∧
      exPointB.price = round2 pr ∧ exPointB.market_cap = roundHalfEven mc ∧
      exPointB.volume = roundHalfEven vol := by
  have hmem : exPointB ∈ process_historical_data exRawB := by
    have heval : process_historical_data exRawB = [exPointB] := by
      simp only [process_historical_data, mergeOn, exRawB, exPointB,
        List.flatMap_cons, List.filter_cons, List.flatMap_nil, List.filter_nil,
        List.map_cons, List.map_nil, List.append_nil, msToDate]
      norm_num [PricePoint.mk.injEq]
      refine ⟨?_, ?_, ?_⟩
      · exact_mod_cast round2_intCast 100
      · have h : ⌊(5 : ℚ)/2⌋ = 2 := by norm_cast
        rw [roundHalfEven, h]
        norm_num
      · have h : ⌊(7 : ℚ)/2⌋ = 3 := by norm_cast
        rw [roundHalfEven, h]
        norm_num
    rw [heval]
    exact List.mem_singleton.mpr rfl
  exact ⟨hmem, process_rounding exRawB exPointB hmem⟩

/-- The spec's two-point response: prices 100 and 200 at timestamps 0 and
86400000 ms, with matching market caps and volumes. -/
def exRawC4 : RawHistorical :=
  { prices := [(0, 100), (86400000, 200)]
    market_caps := [(0, 1), (86400000, 2)]
    total_volumes := [(0, 3), (86400000, 4)] }

/-- C4: on the two-timestamp input, process_historical_data returns exactly
two rows, with prices 100.00 and 200.00, whose dates are one calendar day
apart (days 0 and 1 since the epoch). -/
theorem process_two_rows :
    process_historical_data exRawC4 =
      [{ date := 0, datetime := 0, price := 100, market_cap := 1, volume := 3 },
       { date := 1, datetime := 86400000, price := 200, market_cap := 2,
         volume := 4 }] ∧
    (process_historical_data exRawC4).length = 2 ∧
    (process_historical_data exRawC4).map PricePoint.price = [100, 200] ∧
    ((process_historical_data exRawC4).map PricePoint.date).getD 1 0 -
      ((process_historical_data exRawC4).map PricePoint.date).getD 0 0 = 1 := by
  have heval : process_historical_data exRawC4 =
      [{ date := 0, datetime := 0, price := 100, market_cap := 1, volume := 3 },
       { date := 1, datetime := 86400000, price := 200, market_cap := 2,
         volume := 4 }] := by
    simp [process_historical_data, mergeOn, msToDate, exRawC4]
    refine ⟨⟨?_, ?_, ?_⟩, ?_, ?_, ?_⟩
    · exact_mod_cast round2_intCast 100
    · exact_mod_cast roundHalfEven_intCast 1
    · exact_mod_cast roundHalfEven_intCast 3
    · exact_mod_cast round2_intCast 200
    · exact_mod_cast roundHalfEven_intCast 2
    · exact_mod_cast roundHalfEven_intCast 4
  refine ⟨heval, ?_, ?_, ?_⟩ <;> rw [heval] <;> rfl

/-! ## Lemmas about column minima, maxima and means -/

theorem foldl_min_le_init (xs : List Rat) (a : Rat) : xs.foldl min a ≤ a := by
  induction xs generalizing a with
  | nil => exact le_refl a
  | cons x xs ih => exact le_trans (ih (min a x)) (min_le_left a x)

theorem foldl_min_le_mem (xs : List Rat) (x : Rat) :
    x ∈ xs → ∀ a, xs.foldl min a ≤ x := by
  induction xs with
  | nil => intro hx; cases hx
  | cons y ys ih =>
    intro hx a
    rcases List.mem_cons.mp hx with h | h
    · subst h
      exact le_trans (foldl_min_le_init ys (min a x)) (min_le_right a x)
    · exact ih h (min a y)

theorem foldl_min_mem (xs : List Rat) :
    ∀ a, xs.foldl min a = a ∨ xs.foldl min a ∈ xs := by
  induction xs with
  | nil => exact fun a => Or.inl rfl
  | cons y ys ih =>
    intro a
    rcases ih (min a y) with h | h
    · rcases le_total a y with hm | hm
      · exact Or.inl (by rw [List.foldl_cons, h, min_eq_left hm])
      · refine Or.inr ?_
        rw [List.foldl_cons, h, min_eq_right hm]
        exact List.mem_cons_self y ys
    · exact Or.inr (List.mem_cons_of_mem y (by rw [List.foldl_cons]; exact h))

theorem init_le_foldl_max (xs : List Rat) (a : Rat) : a ≤ xs.foldl max a := by
  induction xs generalizing a with
  | nil => exact le_refl a
  | cons x xs ih => exact le_trans (le_max_left a x) (ih (max a x))

theorem mem_le_foldl_max (xs : List Rat) (x : Rat) :
    x ∈ xs → ∀ a, x ≤ xs.foldl max a := by
  induction xs with
  | nil => intro hx; cases hx
  | cons y ys ih =>
    intro hx a
    rcases List.mem_cons.mp hx with h | h
    · subst h
      exact le_trans (le_max_right a x) (init_le_foldl_max ys (max a x))
    · exact ih h (max a y)

theorem foldl_max_mem (xs : List Rat) :
    ∀ a, xs.foldl max a = a ∨ xs.foldl max a ∈ xs := by
  induction xs with
  | nil => exact fun a => Or.inl rfl
  | cons y ys ih =>
    intro a
    rcases ih (max a y) with h | h
    · rcases le_total a y with hm | hm
      · refine Or.inr ?_
        rw [List.foldl_cons, h, max_eq_right hm]
        exact List.mem_cons_self y ys
      · exact Or.inl (by rw [List.foldl_cons, h, max_eq_left hm])
    · exact Or.inr (List.mem_cons_of_mem y (by rw [List.foldl_cons]; exact h))

theorem colMin_le (l : List Rat) (y : Rat) (hy : y ∈ l) : colMin l ≤ y := by
  cases l with
  | nil => cases hy
  | cons x xs =>
    rcases List.mem_cons.mp hy with h | h
    · subst h
      exact foldl_min_le_init xs y
    · exact foldl_min_le_mem xs y h x

theorem le_colMax (l : List Rat) (y : Rat) (hy : y ∈ l) : y ≤ colMax l := by
  cases l with
  | nil => cases hy
  | cons x xs =>
    rcases List.mem_cons.mp hy with h | h
    · subst h
      exact init_le_foldl_max xs y
    · exact mem_le_foldl_max xs y h x

theorem colMin_mem (l : List Rat) (h : l ≠ []) : colMin l ∈ l := by
  cases l with
  | nil => exact absurd rfl h
  | cons x xs =>
    show xs.foldl min x ∈ x :: xs
    rcases foldl_min_mem xs x with h1 | h1
    · rw [h1]
      exact List.mem_cons_self x xs
    · exact List.mem_cons_of_mem x h1

theorem colMax_mem (l : List Rat) (h : l ≠ []) : colMax l ∈ l := by
  cases l with
  | nil => exact absurd rfl h
  | cons x xs =>
    show xs.foldl max x ∈ x :: xs
    rcases foldl_max_mem xs x with h1 | h1
    · rw [h1]
      exact List.mem_cons_self x xs
    · exact List.mem_cons_of_mem x h1

theorem colMean_const (l : List Rat) (P : Rat) (hne : l ≠ [])
    (h : ∀ x ∈ l, x = P) : colMean l = P := by
  have hrep : l = List.replicate l.length P := List.eq_replicate_of_mem h
  have hlen : (l.length : ℚ) ≠ 0 :=
    Nat.cast_ne_zero.mpr (Nat.pos_iff_ne_zero.mp (List.length_pos.mpr hne))
  rw [colMean, hrep, List.sum_replicate, List.length_replicate, nsmul_eq_mul]
  field_simp

/-- C5: on every non-empty series, create_summary_stats returns the last
row's price as the current price, the attained minimum, maximum and mean of
the price column, and a range equal to maximum minus minimum; on a series of
identical prices P it returns current = min = max = mean = P and range 0. -/
theorem create_summary_stats_spec (df : List PricePoint) (h : df ≠ []) :
    ∃ s, create_summary_stats df = some s ∧
      s.currentPrice = (df.getLast h).price ∧
      (∀ p ∈ df, s.yearLow ≤ p.price ∧ p.price ≤ s.yearHigh) ∧
      s.yearLow ∈ df.map PricePoint.price ∧
      s.yearHigh ∈ df.map PricePoint.price ∧
      s.averagePrice = (df.map PricePoint.price).sum / (df.length : ℚ) ∧
      s.priceRange = s.yearHigh - s.yearLow ∧
      ∀ P : Rat, (∀ p ∈ df, p.price = P) →
        s.currentPrice = P ∧ s.yearHigh = P ∧ s.yearLow = P ∧
        s.averagePrice = P ∧ s.priceRange = 0 := by
  have hlast : df.getLast? = some (df.getLast h) :=
    List.getLast?_eq_getLast_of_ne_nil h
  have hmapne : df.map PricePoint.price ≠ [] := fun hmap =>
    h (List.map_eq_nil_iff.mp hmap)
  have hexp : create_summary_stats df = some
      { currentPrice := (df.getLast h).price
        yearHigh := colMax (df.map PricePoint.price)
        yearLow := colMin (df.map PricePoint.price)
        averagePrice := colMean (df.map PricePoint.price)
        priceRange := colMax (df.map PricePoint.price) -
          colMin (df.map PricePoint.price) } := by
    simp only [create_summary_stats, hlast]
  refine ⟨_, hexp, rfl, ?_, ?_, ?_, ?_, rfl, ?_⟩
  · intro p hp
    exact ⟨colMin_le _ _ (List.mem_map_of_mem _ hp),
      le_colMax _ _ (List.mem_map_of_mem _ hp)⟩
  · exact colMin_mem _ hmapne
  · exact colMax_mem _ hmapne
  · show colMean (df.map PricePoint.price) = _
    rw [colMean, List.length_map]
  · intro P hP
    have hPmap : ∀ x ∈ df.map PricePoint.price, x = P := by
      intro x hx
      obtain ⟨p, hp, rfl⟩ := List.mem_map.mp hx
      exact hP p hp
    have hmax : colMax (df.map PricePoint.price) = P := by
      obtain ⟨p, hp, hpeq⟩ := List.mem_map.mp (colMax_mem _ hmapne)
      rw [← hpeq]
      exact hP p hp
    have hmin : colMin (df.map PricePoint.price) = P := by
      obtain ⟨p, hp, hpeq⟩ := List.mem_map.mp (colMin_mem _ hmapne)
      rw [← hpeq]
      exact hP p hp
    refine ⟨hP _ (List.getLast_mem h), hmax, hmin, ?_, ?_⟩
    · exact colMean_const _ P hmapne hPmap
    · show colMax (df.map PricePoint.price) - colMin (df.map PricePoint.price) = 0
      rw [hmax, hmin, sub_self]

/-- A two-row series used to witness the stats spec. -/
def exSeriesC5 : List PricePoint :=
  [{ date := 0, datetime := 0, price := 5, market_cap := 1, volume := 1 },
   { date := 1, datetime := 86400000, price := 7, market_cap := 2, volume := 2 }]

theorem exSeriesC5_ne : exSeriesC5 ≠ [] := by decide

theorem create_summary_stats_spec_witness :
    exSeriesC5 ≠ [] ∧
    ∃ s, create_summary_stats exSeriesC5 = some s ∧
      s.currentPrice = (exSeriesC5.getLast exSeriesC5_ne).price ∧
      (∀ p ∈ exSeriesC5, s.yearLow ≤ p.price ∧ p.price ≤ s.yearHigh) ∧
      s.yearLow ∈ exSeriesC5.map PricePoint.price ∧
      s.yearHigh ∈ exSeriesC5.map PricePoint.price ∧
      s.averagePrice = (exSeriesC5.map PricePoint.price).sum /
        (exSeriesC5.length : ℚ) ∧
      s.priceRange = s.yearHigh - s.yearLow ∧
      ∀ P : Rat, (∀ p ∈ exSeriesC5, p.price = P) →
        s.currentPrice = P ∧ s.yearHigh = P ∧ s.yearLow = P ∧
        s.averagePrice = P ∧ s.priceRange = 0 :=
  ⟨exSeriesC5_ne, create_summary_stats_spec exSeriesC5 exSeriesC5_ne⟩

/-! ## CSV round trip and the Reporter -/

/-- C6: writing a processed series with save_processed_data and reading the
file back with load_data returns the same rows: all price, market_cap and
volume values are numerically equal, in the same row order. -/
theorem csv_round_trip (raw : RawHistorical) :
    load_data (some (save_processed_data (process_historical_data raw)))
      = some (process_historical_data raw) := by
  simp only [load_data, save_processed_data, List.map_map]
  congr 1
  conv_rhs => rw [← List.map_id (process_historical_data raw)]
  refine List.map_congr_left ?_
  intro p hp
  obtain ⟨x, hx⟩ := process_price_round2 raw hp
  cases p with
  | mk d dt pr mc vol =>
    simp only [Function.comp_apply, id_eq, PricePoint.mk.injEq, true_and,
      and_true]
    simp only at hx
    rw [hx]
    exact round2_num_div_100 x

/-- C7: when the processed CSV does not exist, load_data returns the `None`
sentinel instead of raising, and the Reporter main exits with status 1
having written no chart or report file. -/
theorem reporter_missing_csv :
    load_data none = none ∧
    visualization_main none = some { exitCode := 1, filesWritten := [] } :=
  ⟨rfl, rfl⟩

/-- C8: each fetch function returns the parsed response exactly when the
response status is the success status 200 and raises (Except.error, no
retry) otherwise; the Collector run exits with status 1 exactly when either
fetch fails. -/
theorem fetch_status_behavior (rc : HttpResponse SimplePriceBody)
    (rh : HttpResponse RawHistorical) :
    (rc.status_code = 200 →
      collect_current_price rc = Except.ok rc.body.bitcoin) ∧
    (rc.status_code ≠ 200 →
      ∃ msg, collect_current_price rc = Except.error msg) ∧
    (rh.status_code = 200 → collect_historical_prices rh = Except.ok rh.body) ∧
    (rh.status_code ≠ 200 →
      ∃ msg, collect_historical_prices rh = Except.error msg) ∧
    ((collector_main rc rh).exitCode = 1 ↔
      (rc.status_code ≠ 200 ∨ rh.status_code ≠ 200)) := by
  by_cases h1 : rc.status_code = 200 <;> by_cases h2 : rh.status_code = 200 <;>
    simp [collect_current_price, collect_historical_prices, collector_main,
      h1, h2]

/-- A well-formed current-quote response. -/
def exRespOk : HttpResponse SimplePriceBody :=
  { status_code := 200, body := { bitcoin := ⟨1, 2, 3, 4, 5⟩ } }

/-- A rate-limited market-chart response. -/
def exRespHistBad : HttpResponse RawHistorical :=
  { status_code := 429, body := exRawC4 }

theorem fetch_status_behavior_witness :
    collect_current_price exRespOk = Except.ok exRespOk.body.bitcoin ∧
    (∃ msg, collect_historical_prices exRespHistBad = Except.error msg) ∧
    (collector_main exRespOk exRespHistBad).exitCode = 1 := by
  have h := fetch_status_behavior exRespOk exRespHistBad
  exact ⟨h.1 rfl, h.2.2.2.1 (by decide), h.2.2.2.2.mpr (Or.inr (by decide))⟩

/-- C9: a successful Collector run writes one CSV and one descriptor; the
descriptor is exactly the one rebuilt from the just-written CSV, its
recorded byte size is derived from that CSV's row count (rows * 100), and
that row count is the processed series' length. -/
theorem datapackage_reflects_csv (rc : HttpResponse SimplePriceBody)
    (rh : HttpResponse RawHistorical)
    (h1 : rc.status_code = 200) (h2 : rh.status_code = 200) :
    ∃ csv pkg,
      (collector_main rc rh).processedCsv = some csv ∧
      (collector_main rc rh).datapackage = some pkg ∧
      pkg = create_datapackage csv ∧
      pkg.resourceBytes = (csv.length : Int) * 100 ∧
      csv.length = (process_historical_data rh.body).length := by
  refine ⟨save_processed_data (process_historical_data rh.body),
    create_datapackage (save_processed_data (process_historical_data rh.body)),
    ?_, ?_, rfl, rfl, ?_⟩
  · simp [collector_main, collect_current_price, collect_historical_prices,
      h1, h2]
  · simp [collector_main, collect_current_price, collect_historical_prices,
      h1, h2]
  · exact List.length_map _ _

/-- A well-formed market-chart response. -/
def exRespHistOk : HttpResponse RawHistorical :=
  { status_code := 200, body := exRawB }

theorem datapackage_reflects_csv_witness :
    (exRespOk.status_code = 200 ∧ exRespHistOk.status_code = 200) ∧
    ∃ csv pkg,
      (collector_main exRespOk exRespHistOk).processedCsv = some csv ∧
      (collector_main exRespOk exRespHistOk).datapackage = some pkg ∧
      pkg = create_datapackage csv ∧
      pkg.resourceBytes = (csv.length : Int) * 100 ∧
      csv.length = (process_historical_data exRespHistOk.body).length :=
  ⟨⟨rfl, rfl⟩, datapackage_reflects_csv exRespOk exRespHistOk rfl rfl⟩

/-- C10: create_summary_stats is defined exactly on non-empty series (the
last-row access fails on an empty frame), so the Reporter crashes — writing
no file — on an existing-but-empty CSV, which load_data happily loads. -/
theorem stats_empty_undefined :
    create_summary_stats ([] : List PricePoint) = none ∧
    (∀ df : List PricePoint, create_summary_stats df ≠ none ↔ df ≠ []) ∧
    load_data (some ([] : List CsvRow)) = some [] ∧
    visualization_main (some ([] : List CsvRow)) = none := by
  refine ⟨rfl, ?_, rfl, rfl⟩
  intro df
  cases df with
  | nil => simp [create_summary_stats]
  | cons x xs =>
    have hne : create_summary_stats (x :: xs) ≠ none := by
      simp [create_summary_stats,
        List.getLast?_eq_getLast_of_ne_nil (List.cons_ne_nil x xs)]
    constructor
    · intro _
      exact List.cons_ne_nil x xs
    · intro _
      exact hne

end BitcoinDataset
